import Mathlib

/-!
# Verification of the flutter-analysis core (`src/flutter_analyzer.py`)

Shallow embedding of the numerical core of `get_flutter` and of
`write_roots`.  Real arithmetic of the program is modelled exactly by `ℚ`.
A numpy results array of shape `(num_modes, num_steps, num_columns)` is
modelled by `ResultsTensor`: the shape together with a total entry
function; an individual indexed read is modelled by `ResultsTensor.at3`,
which returns `none` exactly when numpy would raise an `IndexError`.
Consequently `get_flutter` returns `Option _`: `none` iff some read of the
Python code would fail.  The file-system part of `get_flutter`
(locating and parsing the `.f06` file) and the plotting function are
outside the modelled core, as is `write_roots`'s file I/O: for the latter
we model the list of emitted lines.
-/

/-- The raw results array: `response.results` of shape
`(num_modes, num_steps, num_columns)`.  `entry m s c` is the value at
index `[m, s, c]`; a numpy array is regular, so a total function together
with the shape bounds is a faithful model. -/
structure ResultsTensor where
  num_modes : ℕ
  num_steps : ℕ
  num_columns : ℕ
  entry : ℕ → ℕ → ℕ → ℚ

/-- A checked read `response.results[m, s, c]`: `none` models numpy's
`IndexError` when an index is out of range. -/
def ResultsTensor.at3 (t : ResultsTensor) (m s c : ℕ) : Option ℚ :=
  if m < t.num_modes ∧ s < t.num_steps ∧ c < t.num_columns then
    some (t.entry m s c)
  else
    none

/-- The three arrays filled by the reduction loops:
`velocities = np.zeros(num_steps)`,
`frequencies = np.zeros([num_steps, num_modes])`,
`dampings = np.zeros([num_steps, num_modes])`.
Arrays are modelled as total functions, zero-initialised like `np.zeros`;
the 2-D arrays are step-major, mode-minor as in the code. -/
@[ext]
structure ModeSeries where
  velocities : ℕ → ℚ
  frequencies : ℕ → ℕ → ℚ
  dampings : ℕ → ℕ → ℚ

/-- The zero-initialised state before the loops run. -/
def initSeries : ModeSeries :=
  ⟨fun _ => 0, fun _ _ => 0, fun _ _ => 0⟩

/-- Pointwise update of a 1-D array: `a[i] = v`. -/
def upd1 (a : ℕ → ℚ) (i : ℕ) (v : ℚ) : ℕ → ℚ :=
  fun j => if j = i then v else a j

/-- Pointwise update of a 2-D array: `a[i, k] = v`. -/
def upd2 (a : ℕ → ℕ → ℚ) (i k : ℕ) (v : ℚ) : ℕ → ℕ → ℚ :=
  fun j l => if j = i ∧ l = k then v else a j l

/-- One iteration of the inner reduction loop, at mode `i_mode` and step
`i_step`:
`velocities[i_step] = response.results[i_mode, i_step, 2]`,
`frequencies[i_step, i_mode] = response.results[i_mode, i_step, 4]`,
`dampings[i_step, i_mode] = response.results[i_mode, i_step, 3]`. -/
def stepBody (t : ResultsTensor) (i_mode : ℕ) (st : ModeSeries)
    (i_step : ℕ) : Option ModeSeries := do
  let v ← t.at3 i_mode i_step 2
  let f ← t.at3 i_mode i_step 4
  let d ← t.at3 i_mode i_step 3
  pure ⟨upd1 st.velocities i_step v,
        upd2 st.frequencies i_step i_mode f,
        upd2 st.dampings i_step i_mode d⟩

/-- `for i_step in range(k): ...` of the inner reduction loop, run for
steps `0, 1, ..., k-1` in that order. -/
def stepLoop (t : ResultsTensor) (i_mode : ℕ) : ℕ → ModeSeries →
    Option ModeSeries
  | 0, st => some st
  | k + 1, st => do
      let st' ← stepLoop t i_mode k st
      stepBody t i_mode st' k

/-- `for i_mode in range(n): for i_step in range(num_steps): ...`,
run for modes `0, 1, ..., n-1` in that order. -/
def modeLoop (t : ResultsTensor) : ℕ → ModeSeries → Option ModeSeries
  | 0, st => some st
  | n + 1, st => do
      let st' ← modeLoop t n st
      stepLoop t n t.num_steps st'

/-- The whole reduction phase (lines 28–36 of the source): both nested
loops starting from the zero-initialised arrays. -/
def reduceTensor (t : ResultsTensor) : Option ModeSeries :=
  modeLoop t t.num_modes initSeries

/-- The interpolated crossing velocity computed on a detected sign
change: `root = fa / (fa - fb) * (b - a) + a`. -/
def interpRoot (a b fa fb : ℚ) : ℚ :=
  fa / (fa - fb) * (b - a) + a

/-- The root-scan loop for one mode over pairs `(0,1), ..., (k-1,k)`:
`mode_roots` starts empty and a root is appended for pair
`(i_step, i_step+1)` exactly when `fa * fb < 0`. -/
def modeRootsAux (vel damp : ℕ → ℚ) : ℕ → List ℚ
  | 0 => []
  | k + 1 =>
      modeRootsAux vel damp k ++
        (let fa := damp k
         let fb := damp (k + 1)
         if fa * fb < 0 then [interpRoot (vel k) (vel (k + 1)) fa fb]
         else [])

/-- `mode_roots` for one mode: the loop `for i_step in range(num_steps - 1)`
(Python's `range(-1)` at `num_steps = 0` is empty, as is `ℕ`'s `0 - 1`). -/
def mode_roots (vel damp : ℕ → ℚ) (num_steps : ℕ) : List ℚ :=
  modeRootsAux vel damp (num_steps - 1)

/-- The root-finding phase (lines 39–51): the `roots` dict, modelled as
the association list in insertion order; `mode_damping = dampings[:, i_mode]`. -/
def find_roots (num_modes num_steps : ℕ) (vel : ℕ → ℚ)
    (damp : ℕ → ℕ → ℚ) : List (ℕ × List ℚ) :=
  (List.range num_modes).map
    (fun i_mode => (i_mode, mode_roots vel (fun s => damp s i_mode) num_steps))

/-- The numerical core of `get_flutter` (lines 27–53): reduce the tensor,
then find the roots; returns the tuple
`(velocities, frequencies, dampings, roots)`.  `none` models a raised
exception inside the core. -/
def get_flutter (t : ResultsTensor) : Option (ModeSeries × List (ℕ × List ℚ)) := do
  let st ← reduceTensor t
  pure (st, find_roots t.num_modes t.num_steps st.velocities st.dampings)

/-! ## Closed forms of the reduction loops -/

/-- The state of the arrays after the inner loop has processed steps
`0 .. k-1` of mode `m`. -/
def afterSteps (t : ResultsTensor) (m k : ℕ) (st : ModeSeries) : ModeSeries :=
  ⟨fun s => if s < k then t.entry m s 2 else st.velocities s,
   fun s j => if s < k ∧ j = m then t.entry m s 4 else st.frequencies s j,
   fun s j => if s < k ∧ j = m then t.entry m s 3 else st.dampings s j⟩

theorem stepLoop_eq (t : ResultsTensor) (m : ℕ) (hm : m < t.num_modes)
    (hc : 4 < t.num_columns) :
    ∀ k, k ≤ t.num_steps → ∀ st,
      stepLoop t m k st = some (afterSteps t m k st) := by
  intro k
  induction k with
  | zero =>
      intro _ st
      have : afterSteps t m 0 st = st := by
        ext <;> simp [afterSteps]
      rw [this]
      rfl
  | succ k ih =>
      intro hk st
      have hk' : k ≤ t.num_steps := Nat.le_of_succ_le hk
      have hks : k < t.num_steps := hk
      rw [stepLoop, ih hk' st]
      show stepBody t m (afterSteps t m k st) k = _
      have h2 : t.at3 m k 2 = some (t.entry m k 2) := by
        simp [ResultsTensor.at3, hm, hks, show 2 < t.num_columns by omega]
      have h4 : t.at3 m k 4 = some (t.entry m k 4) := by
        simp [ResultsTensor.at3, hm, hks, hc]
      have h3 : t.at3 m k 3 = some (t.entry m k 3) := by
        simp [ResultsTensor.at3, hm, hks, show 3 < t.num_columns by omega]
      rw [stepBody, h2, h4, h3]
      show some _ = some _
      congr 1
      ext s j
      · show upd1 (afterSteps t m k st).velocities k (t.entry m k 2) s = _
        simp only [upd1, afterSteps]
        by_cases h : s = k
        · subst h; simp
        · have : (s < k + 1) = (s < k) := propext (by omega)
          simp [h, this]
      · show upd2 (afterSteps t m k st).frequencies k m (t.entry m k 4) s j = _
        simp only [upd2, afterSteps]
        by_cases h : s = k
        · subst h
          by_cases hj : j = m <;> simp [hj]
        · have : (s < k + 1) = (s < k) := propext (by omega)
          simp [h, this]
      · show upd2 (afterSteps t m k st).dampings k m (t.entry m k 3) s j = _
        simp only [upd2, afterSteps]
        by_cases h : s = k
        · subst h
          by_cases hj : j = m <;> simp [hj]
        · have : (s < k + 1) = (s < k) := propext (by omega)
          simp [h, this]

/-- The arrays after the outer loop has processed modes `0 .. n-1`:
each mode pass overwrites `velocities` completely, so the surviving
values are those of mode `n-1` — not mode `0`. -/
def seriesUpTo (t : ResultsTensor) (n : ℕ) : ModeSeries :=
  ⟨fun s => if s < t.num_steps ∧ 0 < n then t.entry (n - 1) s 2 else 0,
   fun s j => if s < t.num_steps ∧ j < n then t.entry j s 4 else 0,
   fun s j => if s < t.num_steps ∧ j < n then t.entry j s 3 else 0⟩

theorem modeLoop_eq (t : ResultsTensor) (hc : 4 < t.num_columns) :
    ∀ n, n ≤ t.num_modes →
      modeLoop t n initSeries = some (seriesUpTo t n) := by
  intro n
  induction n with
  | zero =>
      intro _
      have : seriesUpTo t 0 = initSeries := by
        ext <;> simp [seriesUpTo, initSeries]
      rw [this]
      rfl
  | succ n ih =>
      intro hn
      have hn' : n ≤ t.num_modes := Nat.le_of_succ_le hn
      rw [modeLoop, ih hn']
      show stepLoop t n t.num_steps (seriesUpTo t n) = _
      rw [stepLoop_eq t n hn hc t.num_steps le_rfl]
      congr 1
      ext s j
      · show (if s < t.num_steps then t.entry n s 2
            else (seriesUpTo t n).velocities s) = _
        simp only [seriesUpTo]
        by_cases h : s < t.num_steps <;> simp [h]
      · show (if s < t.num_steps ∧ j = n then t.entry n s 4
            else (seriesUpTo t n).frequencies s j) = _
        simp only [seriesUpTo]
        by_cases h : s < t.num_steps
        · by_cases hj : j = n
          · subst hj; simp [h]
          · have : (j < n + 1) = (j < n) := propext (by omega)
            simp [h, hj, this]
        · simp [h]
      · show (if s < t.num_steps ∧ j = n then t.entry n s 3
            else (seriesUpTo t n).dampings s j) = _
        simp only [seriesUpTo]
        by_cases h : s < t.num_steps
        · by_cases hj : j = n
          · subst hj; simp [h]
          · have : (j < n + 1) = (j < n) := propext (by omega)
            simp [h, hj, this]
        · simp [h]

/-- Degenerate outer loop: with `num_steps = 0` every inner loop is a
no-op, so the arrays stay zero whatever the column count. -/
theorem modeLoop_eq_of_steps_zero (t : ResultsTensor) (hs : t.num_steps = 0) :
    ∀ n, modeLoop t n initSeries = some (seriesUpTo t n) := by
  intro n
  induction n with
  | zero =>
      have : seriesUpTo t 0 = initSeries := by
        ext <;> simp [seriesUpTo, initSeries]
      rw [this]
      rfl
  | succ n ih =>
      rw [modeLoop, ih]
      show stepLoop t n t.num_steps (seriesUpTo t n) = _
      rw [hs]
      show some (seriesUpTo t n) = some (seriesUpTo t (n + 1))
      congr 1
      ext s j <;> simp [seriesUpTo, hs]

/-- Closed form of the whole reduction: it succeeds (no exception) as
soon as no out-of-range read happens, and the resulting arrays are
`seriesUpTo` at `num_modes`. -/
theorem reduceTensor_eq (t : ResultsTensor)
    (h : 4 < t.num_columns ∨ t.num_steps = 0 ∨ t.num_modes = 0) :
    reduceTensor t = some (seriesUpTo t t.num_modes) := by
  rcases h with hc | hs | hm
  · exact modeLoop_eq t hc t.num_modes le_rfl
  · exact modeLoop_eq_of_steps_zero t hs t.num_modes
  · rw [reduceTensor, hm]
    have : seriesUpTo t 0 = initSeries := by
      ext <;> simp [seriesUpTo, initSeries]
    rw [this]
    rfl

/-- Closed form of the core of `get_flutter`. -/
theorem get_flutter_eq (t : ResultsTensor)
    (h : 4 < t.num_columns ∨ t.num_steps = 0 ∨ t.num_modes = 0) :
    get_flutter t =
      some (seriesUpTo t t.num_modes,
        find_roots t.num_modes t.num_steps
          (seriesUpTo t t.num_modes).velocities
          (seriesUpTo t t.num_modes).dampings) := by
  rw [get_flutter, reduceTensor_eq t h]
  rfl

/-! ## Closed form of the root scan -/

/-- The root loop is the map of the interpolation over exactly the pairs
whose damping product is strictly negative, in increasing step order. -/
theorem modeRootsAux_eq (vel damp : ℕ → ℚ) :
    ∀ k, modeRootsAux vel damp k =
      ((List.range k).filter (fun i => damp i * damp (i + 1) < 0)).map
        (fun i => interpRoot (vel i) (vel (i + 1)) (damp i) (damp (i + 1))) := by
  intro k
  induction k with
  | zero => simp [modeRootsAux]
  | succ k ih =>
      rw [modeRootsAux, ih, List.range_succ, List.filter_append,
        List.map_append]
      by_cases h : damp k * damp (k + 1) < 0 <;> simp [h]

/-- `mode_roots` as a filter-and-map over the pair indices
`0 .. num_steps - 2`. -/
theorem mode_roots_eq (vel damp : ℕ → ℚ) (num_steps : ℕ) :
    mode_roots vel damp num_steps =
      ((List.range (num_steps - 1)).filter
          (fun i => damp i * damp (i + 1) < 0)).map
        (fun i => interpRoot (vel i) (vel (i + 1)) (damp i) (damp (i + 1))) :=
  modeRootsAux_eq vel damp (num_steps - 1)

/-! ## The report writer (`write_roots`, lines 69–78) -/

/-- Python's format spec `2d` applied to the 1-based mode number:
right-aligned in a field of minimum width 2, space-padded. -/
def pad2 (n : ℕ) : String :=
  if n < 10 then " " ++ toString n else toString n

/-- Zero-padding of the three fractional digits. -/
def padZeros3 (r : ℕ) : String :=
  if r < 10 then "00" ++ toString r
  else if r < 100 then "0" ++ toString r
  else toString r

/-- Python's format spec `.3f`: fixed-point with three fractional
digits.  On the exact rationals of this model the rounding is to the
nearest multiple of 1/1000; on every input whose value is an integer
multiple of 1/1000 (all inputs of the spec's examples) no rounding
happens at all and the rendering is exact. -/
def format3 (q : ℚ) : String :=
  let n : ℤ := round (q * 1000)
  let sgn := if n < 0 then "-" else ""
  let m := n.natAbs
  sgn ++ toString (m / 1000) ++ "." ++ padZeros3 (m % 1000)

/-- One report line: `header + data` with
`header = "Mode " + pad2 (i_mode + 1) + ": "` and `data` the
comma-separated 3-digit roots. -/
def reportLine (i_mode : ℕ) (values : List ℚ) : String :=
  "Mode " ++ pad2 (i_mode + 1) ++ ": " ++
    String.intercalate ", " (values.map format3)

/-- Dict access `roots[i_mode]`: `none` models a `KeyError`. -/
def lookupKey (roots : List (ℕ × List ℚ)) (k : ℕ) : Option (List ℚ) :=
  (roots.find? (fun p => p.1 == k)).map Prod.snd

/-- The writer loop over `i_mode in range(k)`: looks each mode up in the
dict and emits a line exactly when `values.size > 0`. -/
def writeRootsAux (roots : List (ℕ × List ℚ)) : ℕ → Option (List String)
  | 0 => some []
  | k + 1 => do
      let acc ← writeRootsAux roots k
      let values ← lookupKey roots k
      pure (if values.length > 0 then acc ++ [reportLine k values] else acc)

/-- The lines `write_roots` writes to the output file, in order;
`num_modes = len(roots)`.  The file-path handling of the original is
outside the modelled core. -/
def write_roots (roots : List (ℕ × List ℚ)) : Option (List String) :=
  writeRootsAux roots roots.length

/-! ## Dict-lookup helpers for the canonical RootSet shape -/

theorem lookupKey_cons (a : ℕ × List ℚ) (l : List (ℕ × List ℚ)) (k : ℕ) :
    lookupKey (a :: l) k = if a.1 = k then some a.2 else lookupKey l k := by
  by_cases h : a.1 = k
  · have hb : (a.1 == k) = true := by simpa using h
    simp [lookupKey, List.find?, hb, h]
  · have hb : (a.1 == k) = false := by simpa using h
    simp [lookupKey, List.find?, hb, h]

theorem lookupKey_append (l₁ l₂ : List (ℕ × List ℚ)) (k : ℕ) :
    lookupKey (l₁ ++ l₂) k =
      (match lookupKey l₁ k with
       | some v => some v
       | none => lookupKey l₂ k) := by
  induction l₁ with
  | nil => simp [lookupKey]
  | cons a l ih =>
      by_cases h : a.1 = k <;>
        simp [List.cons_append, lookupKey_cons, h, ih]

theorem lookupKey_canonical_none (f : ℕ → List ℚ) :
    ∀ n k, n ≤ k → lookupKey ((List.range n).map fun m => (m, f m)) k = none := by
  intro n
  induction n with
  | zero => intro k _; simp [lookupKey]
  | succ n ih =>
      intro k hk
      rw [List.range_succ, List.map_append, lookupKey_append,
        ih k (by omega)]
      simp [lookupKey_cons, show ¬ n = k by omega, lookupKey]

theorem lookupKey_canonical (f : ℕ → List ℚ) :
    ∀ n k, k < n → lookupKey ((List.range n).map fun m => (m, f m)) k = some (f k) := by
  intro n
  induction n with
  | zero => intro k hk; omega
  | succ n ih =>
      intro k hk
      rw [List.range_succ, List.map_append, lookupKey_append]
      by_cases h : k < n
      · rw [ih k h]
      · have hkn : k = n := by omega
        subst hkn
        rw [lookupKey_canonical_none f k k le_rfl]
        simp [lookupKey_cons]

theorem writeRootsAux_canonical (f : ℕ → List ℚ) (n : ℕ) :
    ∀ k, k ≤ n →
      writeRootsAux ((List.range n).map fun m => (m, f m)) k =
        some (((List.range k).filter (fun m => (f m).length > 0)).map
          (fun m => reportLine m (f m))) := by
  intro k
  induction k with
  | zero => intro _; rfl
  | succ k ih =>
      intro hk
      rw [writeRootsAux, ih (by omega),
        lookupKey_canonical f n k (by omega)]
      rw [List.range_succ, List.filter_append, List.map_append]
      by_cases h : (f k).length > 0 <;> simp [h]

/-- C8.  The report writer emits, for each mode with at least one root,
exactly one line built by `reportLine` (1-based mode number padded to
width 2, roots to three decimal digits), omits modes with an empty root
list, and the RootSet mapping mode 0 to `[12.345, 18.9]` and mode 1 to
`[]` renders as the single line `"Mode  1: 12.345, 18.900"`. -/
theorem write_roots_report_format :
    (∀ (n : ℕ) (f : ℕ → List ℚ),
        write_roots ((List.range n).map fun m => (m, f m)) =
          some (((List.range n).filter (fun m => (f m).length > 0)).map
            (fun m => reportLine m (f m)))) ∧
    write_roots [(0, [(12.345 : ℚ), 18.9]), (1, [])] =
      some ["Mode  1: 12.345, 18.900"] := by
  constructor
  · intro n f
    have hl : ((List.range n).map fun m => (m, f m)).length = n := by
      simp
    rw [write_roots, hl]
    exact writeRootsAux_canonical f n n le_rfl
  · have h1 : format3 (12.345 : ℚ) = "12.345" := by
      have hr : round ((12.345 : ℚ) * 1000) = 12345 := by norm_num [round_eq]
      simp only [format3, hr]; decide
    have h2 : format3 ((18.9 : ℚ)) = "18.900" := by
      have hr : round ((18.9 : ℚ) * 1000) = 18900 := by norm_num [round_eq]
      simp only [format3, hr]; decide
    simp only [write_roots, writeRootsAux, lookupKey, reportLine]
    simp [h1, h2]
    decide

/-- C3.  A root is appended for pair `(i, i+1)` exactly when
`damping[i] * damping[i+1] < 0`, strictly: the scan is the map of the
interpolation over precisely the strictly-sign-changing pairs; the pair
`[1.0, 0.0]` (product exactly zero) yields no root, while `[1.0, -1.0]`
yields exactly one root. -/
theorem mode_roots_strict_sign_change :
    (∀ (vel damp : ℕ → ℚ) (n : ℕ),
        mode_roots vel damp n =
          ((List.range (n - 1)).filter (fun i => damp i * damp (i + 1) < 0)).map
            (fun i => interpRoot (vel i) (vel (i + 1)) (damp i) (damp (i + 1)))) ∧
    mode_roots (fun i => ([10, 20] : List ℚ).getD i 0)
      (fun i => ([1, 0] : List ℚ).getD i 0) 2 = [] ∧
    mode_roots (fun i => ([10, 20] : List ℚ).getD i 0)
      (fun i => ([1, -1] : List ℚ).getD i 0) 2 = [15] := by
  refine ⟨mode_roots_eq, ?_, ?_⟩
  · norm_num [mode_roots, modeRootsAux]
  · norm_num [mode_roots, modeRootsAux, interpRoot]

/-- C4 counterexample.  For the damping sequence `[1.0, 0.0, -1.0]` the
code reports no crossing at all — in particular not exactly one: the
product at the pair `(0.0, -1.0)` is exactly zero, which the strict
`fa * fb < 0` guard rejects just as it rejects the pair `(1.0, 0.0)`. -/
theorem mode_roots_zero_midpoint_counterexample :
    mode_roots (fun i => ([10, 20, 30] : List ℚ).getD i 0)
        (fun i => ([1, 0, -1] : List ℚ).getD i 0) 3 = [] ∧
    (mode_roots (fun i => ([10, 20, 30] : List ℚ).getD i 0)
        (fun i => ([1, 0, -1] : List ℚ).getD i 0) 3).length ≠ 1 := by
  have h : mode_roots (fun i => ([10, 20, 30] : List ℚ).getD i 0)
      (fun i => ([1, 0, -1] : List ℚ).getD i 0) 3 = [] := by
    norm_num [mode_roots, modeRootsAux]
  exact ⟨h, by rw [h]; simp⟩

/-- C4 amended.  A damping sequence `[1.0, 0.0, -1.0]` yields no root for
either pair, whatever the velocities: both adjacent products are exactly
zero, so the strict guard detects no crossing. -/
theorem mode_roots_zero_midpoint (vel : ℕ → ℚ) :
    mode_roots vel (fun i => ([1, 0, -1] : List ℚ).getD i 0) 3 = [] := by
  norm_num [mode_roots, modeRootsAux]

/-- C5.  The computed root is the linear interpolation
`velocity[i] + damping[i] / (damping[i] - damping[i+1]) *
(velocity[i+1] - velocity[i])`, and with velocities `[10, 20]` and
dampings `[2, -2]` the single root is exactly `15`, hence within the
`1e-9` tolerance of `15`. -/
theorem interpolation_correct :
    (∀ a b fa fb : ℚ,
        interpRoot a b fa fb = a + fa / (fa - fb) * (b - a)) ∧
    mode_roots (fun i => ([10, 20] : List ℚ).getD i 0)
      (fun i => ([2, -2] : List ℚ).getD i 0) 2 = [15] ∧
    |(15 : ℚ) - 15| ≤ 1 / 1000000000 := by
  refine ⟨?_, ?_, by norm_num⟩
  · intro a b fa fb
    rw [interpRoot]
    ring
  · norm_num [mode_roots, modeRootsAux, interpRoot]

/-- C7.  The roots of a mode are listed in the order the sign changes are
met along increasing flow step: the scan maps the interpolation over the
strictly increasing list of crossing indices; a damping sequence with
three sign changes across 5 steps yields exactly 3 roots in increasing
step order. -/
theorem mode_roots_order :
    (∀ (vel damp : ℕ → ℚ) (n : ℕ),
        ∃ idx : List ℕ,
          idx.Pairwise (· < ·) ∧
          (∀ i ∈ idx, damp i * damp (i + 1) < 0) ∧
          mode_roots vel damp n =
            idx.map (fun i =>
              interpRoot (vel i) (vel (i + 1)) (damp i) (damp (i + 1)))) ∧
    mode_roots (fun i => ([0, 10, 20, 30, 40] : List ℚ).getD i 0)
      (fun i => ([1, -1, 1, -1, -2] : List ℚ).getD i 0) 5 = [5, 15, 25] ∧
    (mode_roots (fun i => ([0, 10, 20, 30, 40] : List ℚ).getD i 0)
      (fun i => ([1, -1, 1, -1, -2] : List ℚ).getD i 0) 5).length = 3 := by
  refine ⟨?_, ?_, ?_⟩
  · intro vel damp n
    refine ⟨(List.range (n - 1)).filter
      (fun i => damp i * damp (i + 1) < 0), ?_, ?_, mode_roots_eq vel damp n⟩
    · exact List.Pairwise.filter _ (List.pairwise_lt_range _)
    · intro i hi
      have := List.of_mem_filter hi
      simpa using this
  · norm_num [mode_roots, modeRootsAux, interpRoot]
  · norm_num [mode_roots, modeRootsAux, interpRoot]

/-! ## Degenerate-shape behaviour and reducer output -/

/-- A 1-mode, 1-step tensor with 5 columns: `num_steps < 2`. -/
def tSingleStep : ResultsTensor := ⟨1, 1, 5, fun _ _ _ => 1⟩

/-- A 0-mode tensor with 5 columns: `num_modes = 0`. -/
def tNoModes : ResultsTensor := ⟨0, 3, 5, fun _ _ _ => 1⟩

/-- C1 counterexample.  `get_flutter` raises nothing on the degenerate
shapes: with `num_steps = 1` it returns a result whose only mode maps to
an empty root list, and with `num_modes = 0` it returns a result with an
empty RootSet — it does not fail with any `ShapeError`/`StructuralError`. -/
theorem get_flutter_no_shape_error_counterexample :
    (get_flutter tSingleStep).isSome = true ∧
    (get_flutter tSingleStep).map Prod.snd = some [(0, [])] ∧
    (get_flutter tNoModes).isSome = true ∧
    (get_flutter tNoModes).map Prod.snd = some [] := by
  refine ⟨by decide, by decide, by decide, by decide⟩

/-- C1 amended.  The code contains no shape validation: for every tensor
with `num_modes = 0`, or with `num_steps < 2` and the five columns the
fixed column indices require, the reduction succeeds (no error is raised)
and root detection runs on an empty pair range, so every mode's root list
is empty. -/
theorem get_flutter_returns_on_degenerate_shapes (t : ResultsTensor)
    (h : t.num_modes = 0 ∨ (t.num_steps < 2 ∧ 4 < t.num_columns)) :
    ∃ r, get_flutter t = some r ∧ ∀ p ∈ r.2, p.2 = ([] : List ℚ) := by
  have h' : 4 < t.num_columns ∨ t.num_steps = 0 ∨ t.num_modes = 0 := by
    rcases h with h | ⟨_, hc⟩
    · exact Or.inr (Or.inr h)
    · exact Or.inl hc
  refine ⟨_, get_flutter_eq t h', ?_⟩
  intro p hp
  simp only [find_roots, List.mem_map, List.mem_range] at hp
  obtain ⟨m, hm, rfl⟩ := hp
  rcases h with h0 | ⟨hs, _⟩
  · omega
  · have : t.num_steps - 1 = 0 := by omega
    show mode_roots _ _ t.num_steps = []
    rw [mode_roots, this]
    rfl

theorem get_flutter_returns_on_degenerate_shapes_witness :
    ∃ r, get_flutter tSingleStep = some r ∧ ∀ p ∈ r.2, p.2 = ([] : List ℚ) :=
  get_flutter_returns_on_degenerate_shapes tSingleStep (Or.inr (by decide))

/-- A 2-mode, 2-step tensor whose velocity column differs between the
modes: entry at `[m, s, c]` is `100 m + 10 s + c`. -/
def tTwoModes : ResultsTensor :=
  ⟨2, 2, 5, fun m s c => ((m * 100 + s * 10 + c : ℕ) : ℚ)⟩

/-- C2 counterexample.  The final `velocities` array is not mode 0's
velocity column: every pass of the outer loop overwrites it, so the
surviving values are mode `num_modes - 1`'s.  On `tTwoModes`,
`velocities[0]` is `102` (mode 1's entry) while mode 0's velocity entry
at step 0 is `2`. -/
theorem velocities_not_from_mode_zero_counterexample :
    (get_flutter tTwoModes).map (fun r => r.1.velocities 0) = some 102 ∧
    tTwoModes.entry 0 0 2 = 2 ∧ (102 : ℚ) ≠ 2 := by
  refine ⟨?_, ?_, by norm_num⟩
  · rw [get_flutter_eq tTwoModes (Or.inl (by norm_num [tTwoModes]))]
    simp [seriesUpTo, tTwoModes]
    norm_num
  · norm_num [tTwoModes]

/-- C2 amended.  For every tensor with at least one mode and the five
columns the fixed indices require, the reducer output is fully populated:
`frequencies[step, mode]` and `dampings[step, mode]` equal the tensor's
column-4 and column-3 entries for every pair, but `velocities[step]`
equals the column-2 entry of the **last** mode (`num_modes - 1`), not of
mode 0; it coincides with mode 0's column only when the velocity column
is identical across modes (the common-sweep assumption, e.g. whenever
`num_modes = 1`). -/
theorem reducer_output_values (t : ResultsTensor)
    (hm : 0 < t.num_modes) (hc : 4 < t.num_columns) :
    ∃ r, get_flutter t = some r ∧
      (∀ s, s < t.num_steps →
        r.1.velocities s = t.entry (t.num_modes - 1) s 2) ∧
      (∀ s, s < t.num_steps → ∀ m, m < t.num_modes →
        r.1.frequencies s m = t.entry m s 4 ∧
        r.1.dampings s m = t.entry m s 3) ∧
      ((∀ m s, t.entry m s 2 = t.entry 0 s 2) →
        ∀ s, s < t.num_steps → r.1.velocities s = t.entry 0 s 2) := by
  refine ⟨_, get_flutter_eq t (Or.inl hc), ?_, ?_, ?_⟩
  · intro s hs
    simp [seriesUpTo, hs, hm]
  · intro s hs m hmm
    constructor <;> simp [seriesUpTo, hs, hmm]
  · intro hcom s hs
    simp [seriesUpTo, hs, hm, hcom (t.num_modes - 1) s]

theorem reducer_output_values_witness :
    ∃ r, get_flutter tTwoModes = some r ∧
      (∀ s, s < tTwoModes.num_steps →
        r.1.velocities s = tTwoModes.entry (tTwoModes.num_modes - 1) s 2) ∧
      (∀ s, s < tTwoModes.num_steps → ∀ m, m < tTwoModes.num_modes →
        r.1.frequencies s m = tTwoModes.entry m s 4 ∧
        r.1.dampings s m = tTwoModes.entry m s 3) ∧
      ((∀ m s, tTwoModes.entry m s 2 = tTwoModes.entry 0 s 2) →
        ∀ s, s < tTwoModes.num_steps →
          r.1.velocities s = tTwoModes.entry 0 s 2) :=
  reducer_output_values tTwoModes (by decide) (by decide)

/-- C6.  For every well-formed tensor with `num_modes ≥ 1` and
`num_steps ≥ 2` (columns 2–4 readable), the returned RootSet has exactly
the keys `0 .. num_modes - 1` in order, and every mode — including one
with no sign change — is present with a (possibly empty) root list. -/
theorem rootset_has_all_mode_keys (t : ResultsTensor)
    (hm : 1 ≤ t.num_modes) (hs : 2 ≤ t.num_steps)
    (hc : 4 < t.num_columns) :
    ∃ r, get_flutter t = some r ∧
      r.2.map Prod.fst = List.range t.num_modes ∧
      ∀ m, m < t.num_modes → ∃ l : List ℚ, lookupKey r.2 m = some l := by
  refine ⟨_, get_flutter_eq t (Or.inl hc), ?_, ?_⟩
  · simp only [find_roots, List.map_map]
    exact List.map_id _
  · intro m hm'
    exact ⟨_, lookupKey_canonical _ _ _ hm'⟩

theorem rootset_has_all_mode_keys_witness :
    ∃ r, get_flutter ⟨1, 2, 5, fun _ _ _ => 1⟩ = some r ∧
      r.2.map Prod.fst = List.range 1 ∧
      ∀ m, m < (1 : ℕ) → ∃ l : List ℚ, lookupKey r.2 m = some l :=
  rootset_has_all_mode_keys ⟨1, 2, 5, fun _ _ _ => 1⟩ (by decide) (by decide)
    (by decide)

/-- C9.  The reduce-plus-root-find computation is deterministic: two runs
of the core on the same tensor produce the same (hence bit-identical)
ModeSeries and RootSet.  The modelled core is a pure function of the
tensor — it consults no state outside its input — so any two results of
running it on equal inputs are equal. -/
theorem get_flutter_deterministic (t : ResultsTensor)
    (r₁ r₂ : Option (ModeSeries × List (ℕ × List ℚ)))
    (h₁ : get_flutter t = r₁) (h₂ : get_flutter t = r₂) : r₁ = r₂ := by
  rw [← h₁, ← h₂]

theorem get_flutter_deterministic_witness :
    get_flutter tSingleStep = get_flutter tSingleStep :=
  get_flutter_deterministic tSingleStep _ _ rfl rfl

/-- C10 counterexample.  When the two bracketing velocities are equal the
reported root is that common value and lies strictly between nothing:
with velocities `[5, 5]` and dampings `[1, -1]` the guard holds, the
root is `5`, and `5` is not strictly between `5` and `5`. -/
theorem root_not_strictly_between_counterexample :
    mode_roots (fun i => ([5, 5] : List ℚ).getD i 0)
        (fun i => ([1, -1] : List ℚ).getD i 0) 2 = [5] ∧
    ¬ (∀ x ∈ mode_roots (fun i => ([5, 5] : List ℚ).getD i 0)
          (fun i => ([1, -1] : List ℚ).getD i 0) 2,
        ([5, 5] : List ℚ).getD 0 0 < x ∧ x < ([5, 5] : List ℚ).getD 1 0) := by
  have h : mode_roots (fun i => ([5, 5] : List ℚ).getD i 0)
      (fun i => ([1, -1] : List ℚ).getD i 0) 2 = [5] := by
    norm_num [mode_roots, modeRootsAux, interpRoot]
  refine ⟨h, fun hall => ?_⟩
  have := hall 5 (by rw [h]; simp)
  norm_num at this

/-- C10 amended.  Whenever the guard `fa * fb < 0` holds the denominator
`fa - fb` is nonzero and the weight `fa / (fa - fb)` lies strictly
between 0 and 1, so the reported root lies strictly between the two
bracketing velocities whenever those are distinct; with equal bracketing
velocities the root equals their common value. -/
theorem interp_root_between (a b fa fb : ℚ) (h : fa * fb < 0) :
    fa - fb ≠ 0 ∧ 0 < fa / (fa - fb) ∧ fa / (fa - fb) < 1 ∧
    (a < b → a < interpRoot a b fa fb ∧ interpRoot a b fa fb < b) ∧
    (b < a → b < interpRoot a b fa fb ∧ interpRoot a b fa fb < a) ∧
    (a = b → interpRoot a b fa fb = a) := by
  have hbounds : fa - fb ≠ 0 ∧ 0 < fa / (fa - fb) ∧ fa / (fa - fb) < 1 := by
    rcases mul_neg_iff.mp h with ⟨ha, hb⟩ | ⟨ha, hb⟩
    · have hd : 0 < fa - fb := by linarith
      exact ⟨ne_of_gt hd, div_pos ha hd, (div_lt_one hd).mpr (by linarith)⟩
    · have hd : fa - fb < 0 := by linarith
      exact ⟨ne_of_lt hd, div_pos_iff.mpr (Or.inr ⟨ha, hd⟩),
        (div_lt_one_of_neg hd).mpr (by linarith)⟩
  obtain ⟨hne, hw0, hw1⟩ := hbounds
  refine ⟨hne, hw0, hw1, ?_, ?_, ?_⟩
  · intro hab
    have h1 : 0 < fa / (fa - fb) * (b - a) :=
      mul_pos hw0 (sub_pos.mpr hab)
    have h2 : fa / (fa - fb) * (b - a) < 1 * (b - a) :=
      mul_lt_mul_of_pos_right hw1 (sub_pos.mpr hab)
    rw [interpRoot]
    constructor <;> linarith
  · intro hba
    have hba' : b - a < 0 := by linarith
    have h1 : fa / (fa - fb) * (b - a) < 0 :=
      mul_neg_of_pos_of_neg hw0 hba'
    have h2 : 1 * (b - a) < fa / (fa - fb) * (b - a) :=
      mul_lt_mul_of_neg_right hw1 hba'
    rw [interpRoot]
    constructor <;> linarith
  · intro hab
    rw [interpRoot, hab]
    ring

theorem interp_root_between_witness :
    (2 : ℚ) * (-2) < 0 ∧
    ((2 : ℚ) - (-2) ≠ 0 ∧ 0 < (2 : ℚ) / (2 - (-2)) ∧ (2 : ℚ) / (2 - (-2)) < 1 ∧
      ((10 : ℚ) < 20 → 10 < interpRoot 10 20 2 (-2) ∧ interpRoot 10 20 2 (-2) < 20) ∧
      ((20 : ℚ) < 10 → 20 < interpRoot 10 20 2 (-2) ∧ interpRoot 10 20 2 (-2) < 10) ∧
      ((10 : ℚ) = 20 → interpRoot 10 20 2 (-2) = 10)) :=
  ⟨by norm_num, interp_root_between 10 20 2 (-2) (by norm_num)⟩
